import Mathlib

/-!
Verification of `aeneas/exacttiming.py`: a shallow embedding of `TimeValue`,
`TimeInterval` and `TimeIntervalList` together with proofs about the claims of
the specification.

Time coordinates (`TimeValue`, a `decimal.Decimal` subclass) are modelled as
rationals `ℚ`: every arithmetic operation the interval code performs on them
(addition, subtraction, `max`, `min`, comparisons) is exact in `decimal` for
the magnitudes involved, and `ℚ` reproduces it exactly.  The 28-significant-
digit context rounding of `decimal` matters only for the claim about numeric
closure, which is treated separately with a dedicated decimal model (`Dec`).

Python exceptions are modelled by `Except Err`; an error aborts the call.
-/

/-- The kinds of Python exceptions that the embedded code can raise.
`fuelExhausted` is not a Python exception: it marks the (unreachable)
exhaustion of the explicit iteration bound used to express the `while`
loops of `fix_zero_length_intervals` as structural recursion. -/
inductive Err
  | typeError
  | valueError
  | indexError
  | nameError
  | fuelExhausted
deriving Repr, DecidableEq

/-- The 26 `RELATIVE_POSITION_*` constants of `TimeInterval`
(`src/aeneas/exacttiming.py`, lines 233-258), as a closed enumeration. -/
inductive RelPos
  | PP_L | PP_C | PP_G
  | PI_LL | PI_LC | PI_LG | PI_CG | PI_GG
  | IP_L | IP_B | IP_I | IP_E | IP_G
  | II_LL | II_LB | II_LI | II_LE | II_LG
  | II_BI | II_BE | II_BG
  | II_II | II_IE | II_IG
  | II_EG | II_GG
deriving Repr, DecidableEq, Fintype

/-- The `interval_type` tag of a `TimeInterval`
(`REGULAR = 0`, `HEAD = 1`, `TAIL = 2`, `SILENCE = 3`). -/
inductive IntervalType
  | REGULAR
  | HEAD
  | TAIL
  | SILENCE
deriving Repr, DecidableEq

/-- `TimeInterval`: a pair `(begin, end)` of time points with a type tag.
The constructor checks (`begin ≥ 0`, `begin ≤ end`) are expressed by the
predicate `TimeInterval.valid` below. -/
structure TimeInterval where
  begin : ℚ
  «end» : ℚ
  interval_type : IntervalType := .REGULAR
deriving Repr, DecidableEq

/-- The invariant established by `TimeInterval.__init__`:
`begin` is non-negative and not bigger than `end`. -/
def TimeInterval.valid (i : TimeInterval) : Prop :=
  0 ≤ i.begin ∧ i.begin ≤ i.«end»

instance (i : TimeInterval) : Decidable i.valid :=
  inferInstanceAs (Decidable (_ ∧ _))

/-- `TimeInterval.length`: `end - begin`. -/
def TimeInterval.length (i : TimeInterval) : ℚ :=
  i.«end» - i.begin

/-- `TimeInterval.has_zero_length`: `end == begin`. -/
def TimeInterval.has_zero_length (i : TimeInterval) : Prop :=
  i.«end» = i.begin

instance (i : TimeInterval) : Decidable i.has_zero_length :=
  inferInstanceAs (Decidable (_ = _))

/-- `INVERSE_RELATIVE_POSITION` (lines 260-287): the fixed involutive mapping
from each relative position to the relative position observed from the other
interval. -/
def INVERSE_RELATIVE_POSITION : RelPos → RelPos
  | .PP_L => .PP_G
  | .PP_C => .PP_C
  | .PP_G => .PP_L
  | .PI_LL => .IP_G
  | .PI_LC => .IP_E
  | .PI_LG => .IP_I
  | .PI_CG => .IP_B
  | .PI_GG => .IP_L
  | .IP_L => .PI_GG
  | .IP_B => .PI_CG
  | .IP_I => .PI_LG
  | .IP_E => .PI_LC
  | .IP_G => .PI_LL
  | .II_LL => .II_GG
  | .II_LB => .II_EG
  | .II_LI => .II_IG
  | .II_LE => .II_IE
  | .II_LG => .II_II
  | .II_BI => .II_BG
  | .II_BE => .II_BE
  | .II_BG => .II_BI
  | .II_II => .II_LG
  | .II_IE => .II_LE
  | .II_IG => .II_LI
  | .II_EG => .II_LB
  | .II_GG => .II_LL

/-- `TimeInterval.relative_position_of` (lines 446-533): the 26-way
classification of `other` relative to `self`, translated branch for branch
(TABLE 1 through TABLE 8). -/
def TimeInterval.relative_position_of (self other : TimeInterval) : RelPos :=
  if self.has_zero_length then
    if other.has_zero_length then
      -- TABLE 1
      if other.begin < self.begin then .PP_L
      else if other.begin = self.begin then .PP_C
      else .PP_G
    else
      -- TABLE 2
      if other.«end» < self.begin then .PI_LL
      else if other.«end» = self.begin then .PI_LC
      else if other.begin < self.begin then .PI_LG
      else if other.begin = self.begin then .PI_CG
      else .PI_GG
  else
    if other.has_zero_length then
      -- TABLE 3
      if other.begin < self.begin then .IP_L
      else if other.begin = self.begin then .IP_B
      else if other.begin < self.«end» then .IP_I
      else if other.begin = self.«end» then .IP_E
      else .IP_G
    else
      if other.begin < self.begin then
        -- TABLE 4
        if other.«end» < self.begin then .II_LL
        else if other.«end» = self.begin then .II_LB
        else if other.«end» < self.«end» then .II_LI
        else if other.«end» = self.«end» then .II_LE
        else .II_LG
      else if other.begin = self.begin then
        -- TABLE 5
        if other.«end» < self.«end» then .II_BI
        else if other.«end» = self.«end» then .II_BE
        else .II_BG
      else if other.begin < self.«end» then
        -- TABLE 6
        if other.«end» < self.«end» then .II_II
        else if other.«end» = self.«end» then .II_IE
        else .II_IG
      else if other.begin = self.«end» then .II_EG
      else .II_GG

/-- `TimeInterval.relative_position_wrt` (lines 535-545):
the inverse table applied to `relative_position_of`. -/
def TimeInterval.relative_position_wrt (self other : TimeInterval) : RelPos :=
  INVERSE_RELATIVE_POSITION (self.relative_position_of other)

/-- The ordering facts that hold on the path of `relative_position_of`
leading to each classification (sharpened to strict forms using the interval
invariant). -/
def path_facts : RelPos → TimeInterval → TimeInterval → Prop
  | .PP_L, s, o => s.«end» = s.begin ∧ o.«end» = o.begin ∧ o.begin < s.begin
  | .PP_C, s, o => s.«end» = s.begin ∧ o.«end» = o.begin ∧ o.begin = s.begin
  | .PP_G, s, o => s.«end» = s.begin ∧ o.«end» = o.begin ∧ s.begin < o.begin
  | .PI_LL, s, o => s.«end» = s.begin ∧ o.begin < o.«end» ∧ o.«end» < s.begin
  | .PI_LC, s, o => s.«end» = s.begin ∧ o.begin < o.«end» ∧ o.«end» = s.begin
  | .PI_LG, s, o =>
      s.«end» = s.begin ∧ o.begin < o.«end» ∧ s.begin < o.«end» ∧ o.begin < s.begin
  | .PI_CG, s, o =>
      s.«end» = s.begin ∧ o.begin < o.«end» ∧ s.begin < o.«end» ∧ o.begin = s.begin
  | .PI_GG, s, o => s.«end» = s.begin ∧ o.begin < o.«end» ∧ s.begin < o.begin
  | .IP_L, s, o => s.begin < s.«end» ∧ o.«end» = o.begin ∧ o.begin < s.begin
  | .IP_B, s, o => s.begin < s.«end» ∧ o.«end» = o.begin ∧ o.begin = s.begin
  | .IP_I, s, o =>
      s.begin < s.«end» ∧ o.«end» = o.begin ∧ s.begin < o.begin ∧ o.begin < s.«end»
  | .IP_E, s, o => s.begin < s.«end» ∧ o.«end» = o.begin ∧ o.begin = s.«end»
  | .IP_G, s, o => s.begin < s.«end» ∧ o.«end» = o.begin ∧ s.«end» < o.begin
  | .II_LL, s, o =>
      s.begin < s.«end» ∧ o.begin < o.«end» ∧ o.begin < s.begin ∧ o.«end» < s.begin
  | .II_LB, s, o =>
      s.begin < s.«end» ∧ o.begin < o.«end» ∧ o.begin < s.begin ∧ o.«end» = s.begin
  | .II_LI, s, o =>
      s.begin < s.«end» ∧ o.begin < o.«end» ∧ o.begin < s.begin ∧
        s.begin < o.«end» ∧ o.«end» < s.«end»
  | .II_LE, s, o =>
      s.begin < s.«end» ∧ o.begin < o.«end» ∧ o.begin < s.begin ∧ o.«end» = s.«end»
  | .II_LG, s, o =>
      s.begin < s.«end» ∧ o.begin < o.«end» ∧ o.begin < s.begin ∧ s.«end» < o.«end»
  | .II_BI, s, o =>
      s.begin < s.«end» ∧ o.begin < o.«end» ∧ o.begin = s.begin ∧ o.«end» < s.«end»
  | .II_BE, s, o =>
      s.begin < s.«end» ∧ o.begin < o.«end» ∧ o.begin = s.begin ∧ o.«end» = s.«end»
  | .II_BG, s, o =>
      s.begin < s.«end» ∧ o.begin < o.«end» ∧ o.begin = s.begin ∧ s.«end» < o.«end»
  | .II_II, s, o =>
      s.begin < s.«end» ∧ o.begin < o.«end» ∧ s.begin < o.begin ∧
        o.begin < s.«end» ∧ o.«end» < s.«end»
  | .II_IE, s, o =>
      s.begin < s.«end» ∧ o.begin < o.«end» ∧ s.begin < o.begin ∧
        o.begin < s.«end» ∧ o.«end» = s.«end»
  | .II_IG, s, o =>
      s.begin < s.«end» ∧ o.begin < o.«end» ∧ s.begin < o.begin ∧
        o.begin < s.«end» ∧ s.«end» < o.«end»
  | .II_EG, s, o => s.begin < s.«end» ∧ o.begin < o.«end» ∧ o.begin = s.«end»
  | .II_GG, s, o => s.begin < s.«end» ∧ o.begin < o.«end» ∧ s.«end» < o.begin

set_option maxHeartbeats 2000000

theorem relative_position_of_spec (s o : TimeInterval)
    (hs : s.valid) (ho : o.valid) :
    path_facts (s.relative_position_of o) s o := by
  obtain ⟨hs0, hs1⟩ := hs
  obtain ⟨ho0, ho1⟩ := ho
  unfold TimeInterval.relative_position_of
  unfold TimeInterval.has_zero_length
  split_ifs
  all_goals simp only [path_facts]
  all_goals (try simp only [not_lt, ← ne_eq, ne_iff_lt_or_gt] at *)
  all_goals (try casesm* _ ∨ _)
  all_goals (repeat' constructor)
  all_goals linarith

theorem inverse_relative_position_eq (a b : TimeInterval)
    (ha : a.valid) (hb : b.valid) :
    INVERSE_RELATIVE_POSITION (a.relative_position_of b) =
      b.relative_position_of a := by
  obtain ⟨ha0, ha1⟩ := ha
  obtain ⟨hb0, hb1⟩ := hb
  unfold TimeInterval.relative_position_of
  unfold TimeInterval.has_zero_length
  split_ifs
  all_goals
    first
      | rfl
      | linarith
      | (exfalso
         simp only [not_lt, ← ne_eq, ne_iff_lt_or_gt] at *
         (try casesm* _ ∨ _)
         all_goals linarith)

set_option maxHeartbeats 200000

/-- `TimeInterval.__eq__` (lines 316-319): a non-`TimeInterval` argument
(modelled by `none`) compares unequal; otherwise only `(begin, end)` are
compared, ignoring `interval_type`. -/
def TimeInterval.py_eq (self : TimeInterval) (other : Option TimeInterval) : Bool :=
  match other with
  | none => false
  | some o => decide (self.begin = o.begin ∧ self.«end» = o.«end»)

/-- `TimeInterval.__lt__` (lines 329-332): tuple comparison
`(self.begin, self.end) < (other.begin, other.end)` (lexicographic);
a non-`TimeInterval` argument compares `False`. -/
def TimeInterval.py_lt (self : TimeInterval) (other : Option TimeInterval) : Bool :=
  match other with
  | none => false
  | some o =>
      decide (self.begin < o.begin ∨
        (self.begin = o.begin ∧ self.«end» < o.«end»))

/-- `TimeInterval.__gt__` (lines 324-327): tuple comparison
`(self.begin, self.end) > (other.begin, other.end)`;
a non-`TimeInterval` argument compares `False`. -/
def TimeInterval.py_gt (self : TimeInterval) (other : Option TimeInterval) : Bool :=
  match other with
  | none => false
  | some o =>
      decide (o.begin < self.begin ∨
        (o.begin = self.begin ∧ o.«end» < self.«end»))

/-- `TimeInterval.intersection` (lines 547-588).  The source dispatches on
`relative_position_of` through four membership lists; the four match arms
group exactly the same constants. -/
def TimeInterval.intersection (self other : TimeInterval) : Option TimeInterval :=
  match self.relative_position_of other with
  | .PP_C | .PI_LC | .PI_LG | .PI_CG | .IP_B | .II_LB =>
      some { begin := self.begin, «end» := self.begin }
  | .IP_E | .II_EG =>
      some { begin := self.«end», «end» := self.«end» }
  | .II_BI | .II_BE | .II_II | .II_IE =>
      some { begin := other.begin, «end» := other.«end» }
  | .IP_I | .II_LI | .II_LE | .II_LG | .II_BG | .II_IG =>
      some { begin := max self.begin other.begin,
             «end» := min self.«end» other.«end» }
  | _ => none

/-- `TimeInterval.overlaps` (lines 590-599):
`self.intersection(other) is not None`. -/
def TimeInterval.overlaps (self other : TimeInterval) : Bool :=
  (self.intersection other).isSome

/-- Equality of `intersection` results "as interval values":
both `None`, or intervals with equal `begin` and equal `end`
(this is what `TimeInterval.__eq__` compares). -/
def interval_value_eq : Option TimeInterval → Option TimeInterval → Prop
  | none, none => True
  | some i, some j => i.begin = j.begin ∧ i.«end» = j.«end»
  | _, _ => False

/-- `TimeInterval.offset` (lines 389-419): translate both endpoints by
`offset`; clamp to `≥ 0` unless `allow_negative`; clamp into
`[min_begin_value, max_end_value]` when both bounds are given. -/
def TimeInterval.offset (self : TimeInterval) (offset : ℚ)
    (allow_negative : Bool := false)
    (min_begin_value : Option ℚ := none)
    (max_end_value : Option ℚ := none) : TimeInterval :=
  let b1 := self.begin + offset
  let e1 := self.«end» + offset
  let b2 := if allow_negative then b1 else max b1 0
  let e2 := if allow_negative then e1 else max e1 0
  match min_begin_value, max_end_value with
  | some mn, some mx =>
      { self with begin := min (max b2 mn) mx, «end» := min e2 mx }
  | _, _ => { self with begin := b2, «end» := e2 }

/-- `TimeInterval.shrink` (lines 627-635). -/
def TimeInterval.shrink (self : TimeInterval) (quantity : ℚ)
    (from_begin : Bool := true) : Except Err TimeInterval :=
  if quantity ≤ 0 then .error .valueError
  else if self.length < quantity then .error .valueError
  else if from_begin then
    .ok { self with begin := self.«end» - self.length + quantity }
  else
    .ok { self with «end» := self.begin + self.length - quantity }

/-- `TimeInterval.enlarge` (lines 637-643). -/
def TimeInterval.enlarge (self : TimeInterval) (quantity : ℚ)
    (from_begin : Bool := true) : Except Err TimeInterval :=
  if quantity ≤ 0 then .error .valueError
  else if from_begin then
    .ok { self with begin := self.begin - quantity }
  else
    .ok { self with «end» := self.«end» + quantity }

/-- `TimeInterval.move_end_at` (lines 645-650): re-anchor `end` to `point`,
shifting `begin` so the length is preserved. -/
def TimeInterval.move_end_at (self : TimeInterval) (point : ℚ) :
    Except Err TimeInterval :=
  if point < self.begin then .error .valueError
  else .ok { self with «end» := point, begin := point - self.length }

/-- `TimeInterval.move_begin_at` (lines 652-657): re-anchor `begin` to
`point`, shifting `end` so the length is preserved. -/
def TimeInterval.move_begin_at (self : TimeInterval) (point : ℚ) :
    Except Err TimeInterval :=
  if self.«end» < point then .error .valueError
  else .ok { self with begin := point, «end» := point + self.length }

/-- C1: for valid intervals the classification is total (a single value of
the 26-element enumeration `RelPos`), and `relative_position_wrt`, obtained
by applying `INVERSE_RELATIVE_POSITION` to `relative_position_of`, equals
the classification computed from the other side. -/
theorem C1_relative_position_total_involutive (a b : TimeInterval)
    (ha : a.valid) (hb : b.valid) :
    (∃! r : RelPos, a.relative_position_of b = r) ∧
    Fintype.card RelPos = 26 ∧
    a.relative_position_wrt b = b.relative_position_of a := by
  refine ⟨⟨a.relative_position_of b, rfl, fun r h => h.symm⟩, by decide, ?_⟩
  unfold TimeInterval.relative_position_wrt
  exact inverse_relative_position_eq a b ha hb

/-- Witness for C1 at `a = [0,1]`, `b = [1,2]`. -/
theorem C1_witness :
    (∃! r : RelPos,
        TimeInterval.relative_position_of ⟨0, 1, .REGULAR⟩ ⟨1, 2, .REGULAR⟩ = r) ∧
    Fintype.card RelPos = 26 ∧
    TimeInterval.relative_position_wrt ⟨0, 1, .REGULAR⟩ ⟨1, 2, .REGULAR⟩ =
      TimeInterval.relative_position_of ⟨1, 2, .REGULAR⟩ ⟨0, 1, .REGULAR⟩ :=
  C1_relative_position_total_involutive ⟨0, 1, .REGULAR⟩ ⟨1, 2, .REGULAR⟩
    (by constructor <;> norm_num)
    (by constructor <;> norm_num)

/-- C4: for valid intervals, `intersection` is symmetric as interval values,
and `overlaps` holds exactly when the intersection is not `None`. -/
theorem C4_intersection_symmetric (a b : TimeInterval)
    (ha : a.valid) (hb : b.valid) :
    interval_value_eq (a.intersection b) (b.intersection a) ∧
    (a.overlaps b = true ↔ a.intersection b ≠ none) := by
  constructor
  · have hf := relative_position_of_spec a b ha hb
    have hba : b.relative_position_of a =
        INVERSE_RELATIVE_POSITION (a.relative_position_of b) :=
      (inverse_relative_position_eq a b ha hb).symm
    rcases h : a.relative_position_of b
    all_goals rw [h] at hba hf
    all_goals simp only [INVERSE_RELATIVE_POSITION] at hba
    all_goals simp only [path_facts] at hf
    all_goals casesm* _ ∧ _
    all_goals
      simp only [TimeInterval.intersection, h, hba, interval_value_eq,
        max_def, min_def]
    all_goals (try split_ifs)
    all_goals (try constructor)
    all_goals first | trivial | linarith
  · unfold TimeInterval.overlaps
    cases h : a.intersection b <;> simp [h]

/-- Witness for C4 at `a = [0,2]`, `b = [1,3]`. -/
theorem C4_witness :
    interval_value_eq
      (TimeInterval.intersection ⟨0, 2, .REGULAR⟩ ⟨1, 3, .REGULAR⟩)
      (TimeInterval.intersection ⟨1, 3, .REGULAR⟩ ⟨0, 2, .REGULAR⟩) ∧
    (TimeInterval.overlaps ⟨0, 2, .REGULAR⟩ ⟨1, 3, .REGULAR⟩ = true ↔
      TimeInterval.intersection ⟨0, 2, .REGULAR⟩ ⟨1, 3, .REGULAR⟩ ≠ none) :=
  C4_intersection_symmetric ⟨0, 2, .REGULAR⟩ ⟨1, 3, .REGULAR⟩
    (by constructor <;> norm_num)
    (by constructor <;> norm_num)

/-- C5 counterexample: `enlarge(1, from_begin=True)` on the valid interval
`[0,1]` succeeds and returns `[-1,1]`, which violates `begin ≥ 0`; so it is
not true that every mutator call either fails or re-establishes the full
interval invariant. -/
theorem C5_counterexample :
    (⟨0, 1, .REGULAR⟩ : TimeInterval).valid ∧
    TimeInterval.enlarge ⟨0, 1, .REGULAR⟩ 1 true =
      .ok ⟨-1, 1, .REGULAR⟩ ∧
    ¬ (⟨-1, 1, .REGULAR⟩ : TimeInterval).valid := by
  refine ⟨⟨by norm_num, by norm_num⟩, ?_, ?_⟩
  · norm_num [TimeInterval.enlarge]
  · intro hv
    have h0 := hv.1
    norm_num at h0

/-- C5 (amended): starting from a valid interval, `shrink`, `enlarge` from
the end side, and `offset` with `allow_negative=False` and no clamp bounds
either fail or re-establish the full invariant (`begin ≥ 0` and
`begin ≤ end`); every `shrink`/`enlarge`/`move_end_at`/`move_begin_at` call
and every unclamped `offset` call that returns re-establishes
`begin ≤ end`, but `enlarge` from the begin side, `move_end_at`,
`move_begin_at` and `offset` with `allow_negative=True` may return an
interval with negative `begin`. -/
theorem C5_mutators_amended (i : TimeInterval) (hi : i.valid) :
    (∀ q fb j, i.shrink q fb = .ok j → j.valid) ∧
    (∀ q j, i.enlarge q false = .ok j → j.valid) ∧
    (∀ q fb j, i.enlarge q fb = .ok j → j.begin ≤ j.«end») ∧
    (∀ p j, i.move_end_at p = .ok j → j.begin ≤ j.«end») ∧
    (∀ p j, i.move_begin_at p = .ok j → j.begin ≤ j.«end») ∧
    (∀ o an, (i.offset o an none none).begin ≤ (i.offset o an none none).«end») ∧
    (∀ o, (i.offset o false none none).valid) := by
  obtain ⟨hi0, hi1⟩ := hi
  refine ⟨?_, ?_, ?_, ?_, ?_, ?_, ?_⟩
  · intro q fb j h
    unfold TimeInterval.shrink TimeInterval.length at h
    split_ifs at h <;> first
      | exact Except.noConfusion h
      | (injection h with h
         subst h
         exact ⟨by dsimp only; linarith, by dsimp only; linarith⟩)
  · intro q j h
    unfold TimeInterval.enlarge at h
    split_ifs at h <;> first
      | exact Except.noConfusion h
      | contradiction
      | (injection h with h
         subst h
         exact ⟨by dsimp only; linarith, by dsimp only; linarith⟩)
  · intro q fb j h
    unfold TimeInterval.enlarge at h
    split_ifs at h <;> first
      | exact Except.noConfusion h
      | (injection h with h
         subst h
         dsimp only
         linarith)
  · intro p j h
    unfold TimeInterval.move_end_at TimeInterval.length at h
    split_ifs at h <;> first
      | exact Except.noConfusion h
      | (injection h with h
         subst h
         dsimp only
         linarith)
  · intro p j h
    unfold TimeInterval.move_begin_at TimeInterval.length at h
    split_ifs at h <;> first
      | exact Except.noConfusion h
      | (injection h with h
         subst h
         dsimp only
         linarith)
  · intro o an
    unfold TimeInterval.offset
    cases an
    · simp only [Bool.false_eq_true, if_false]
      exact max_le_max (by linarith) le_rfl
    · simp only [eq_self_iff_true, if_true]
      linarith
  · intro o
    unfold TimeInterval.offset
    simp only [Bool.false_eq_true, if_false]
    exact ⟨le_max_right _ _, max_le_max (by linarith) le_rfl⟩

/-- Witness for C5 (amended) at `i = [1,3]`, checking the `shrink` clause
at `q = 1` and the unclamped-offset clause at `o = -2`. -/
theorem C5_witness :
    TimeInterval.shrink ⟨1, 3, .REGULAR⟩ 1 true = .ok ⟨2, 3, .REGULAR⟩ ∧
    (TimeInterval.shrink ⟨1, 3, .REGULAR⟩ 1 true = .ok ⟨2, 3, .REGULAR⟩ →
      (⟨2, 3, .REGULAR⟩ : TimeInterval).valid) ∧
    (TimeInterval.offset ⟨1, 3, .REGULAR⟩ (-2) false none none).valid := by
  have h := C5_mutators_amended ⟨1, 3, .REGULAR⟩ ⟨by norm_num, by norm_num⟩
  have he : TimeInterval.shrink ⟨1, 3, .REGULAR⟩ 1 true =
      .ok ⟨2, 3, .REGULAR⟩ := by
    norm_num [TimeInterval.shrink, TimeInterval.length]
  exact ⟨he, h.1 1 true ⟨2, 3, .REGULAR⟩, h.2.2.2.2.2.2 (-2)⟩

/-- C8: interval equality and the ordering comparisons look only at
`(begin, end)` — the `interval_type` tag is ignored — and comparing against
a non-`TimeInterval` value returns `False` instead of raising. -/
theorem C8_comparisons (a b : TimeInterval) :
    (a.begin = b.begin → a.«end» = b.«end» → a.py_eq (some b) = true) ∧
    (∀ ta tb,
      TimeInterval.py_eq { a with interval_type := ta }
          (some { b with interval_type := tb }) = a.py_eq (some b) ∧
      TimeInterval.py_lt { a with interval_type := ta }
          (some { b with interval_type := tb }) = a.py_lt (some b) ∧
      TimeInterval.py_gt { a with interval_type := ta }
          (some { b with interval_type := tb }) = a.py_gt (some b)) ∧
    a.py_eq none = false ∧ a.py_lt none = false ∧ a.py_gt none = false := by
  refine ⟨?_, ?_, rfl, rfl, rfl⟩
  · intro h1 h2
    simp [TimeInterval.py_eq, h1, h2]
  · intro ta tb
    exact ⟨rfl, rfl, rfl⟩

/-- Witness for C8 at two equal-endpoint intervals with different tags. -/
theorem C8_witness :
    TimeInterval.py_eq ⟨1, 2, .HEAD⟩ (some ⟨1, 2, .SILENCE⟩) = true :=
  (C8_comparisons ⟨1, 2, .HEAD⟩ ⟨1, 2, .SILENCE⟩).1 rfl rfl

/-- `TimeIntervalList.ALLOWED_POSITIONS` (lines 685-701): the relative
positions that an existing member may assign to a candidate interval. -/
def ALLOWED_POSITIONS : List RelPos :=
  [.PP_L, .PP_C, .PP_G,
   .PI_LL, .PI_LC, .PI_CG, .PI_GG,
   .IP_L, .IP_B, .IP_E, .IP_G,
   .II_LL, .II_LB, .II_EG, .II_GG]

/-- `TimeIntervalList`: optional global bounds plus the (private) member
list `self.__intervals`. -/
structure TimeIntervalList where
  begin : Option ℚ
  «end» : Option ℚ
  intervals : List TimeInterval
deriving Repr, DecidableEq

/-- `TimeIntervalList._check_boundaries` (lines 729-740): raise unless the
interval lies inside the list bounds (when they are set). -/
def TimeIntervalList._check_boundaries (L : TimeIntervalList)
    (interval : TimeInterval) : Except Err Unit :=
  match L.begin with
  | some b =>
      if interval.begin < b then .error .valueError
      else
        match L.«end» with
        | some e => if e < interval.«end» then .error .valueError else .ok ()
        | none => .ok ()
  | none =>
      match L.«end» with
      | some e => if e < interval.«end» then .error .valueError else .ok ()
      | none => .ok ()

/-- The loop of `TimeIntervalList._check_overlap` (lines 742-752):
raise on the first member whose relative position of the candidate is not
in `ALLOWED_POSITIONS`. -/
def check_overlap_loop (interval : TimeInterval) :
    List TimeInterval → Except Err Unit
  | [] => .ok ()
  | i :: rest =>
      if i.relative_position_of interval ∈ ALLOWED_POSITIONS then
        check_overlap_loop interval rest
      else .error .valueError

/-- `TimeIntervalList._check_overlap`. -/
def TimeIntervalList._check_overlap (L : TimeIntervalList)
    (interval : TimeInterval) : Except Err Unit :=
  check_overlap_loop interval L.intervals

/-- The comparator used by Python's `sorted` on `TimeInterval`: the stable
sort keeps `x` before `y` unless `y.__lt__(x)` holds. -/
def interval_sort_le (x y : TimeInterval) : Bool :=
  ! TimeInterval.py_lt y (some x)

/-- `TimeIntervalList.add` (lines 754-772): check boundaries, check
overlaps, append, and re-sort when `sort` is set. -/
def TimeIntervalList.add (L : TimeIntervalList) (interval : TimeInterval)
    (sort : Bool := true) : Except Err TimeIntervalList :=
  match L._check_boundaries interval with
  | .error e => .error e
  | .ok _ =>
    match L._check_overlap interval with
    | .error e => .error e
    | .ok _ =>
      let ms := L.intervals ++ [interval]
      .ok { L with intervals := if sort then ms.mergeSort interval_sort_le else ms }

/-- The in-place result of `add`: Python raises before touching
`self.__intervals`, so on an error the receiver keeps its state. -/
def TimeIntervalList.add_run (L : TimeIntervalList) (interval : TimeInterval)
    (sort : Bool) : TimeIntervalList :=
  match L.add interval sort with
  | .ok L2 => L2
  | .error _ => L

/-- Repeated `add` with `sort=True`, aborting at the first error. -/
def TimeIntervalList.add_all (L : TimeIntervalList) :
    List TimeInterval → Except Err TimeIntervalList
  | [] => .ok L
  | c :: cs =>
      match L.add c true with
      | .error e => .error e
      | .ok L2 => L2.add_all cs

/-- Ascending order on the key `(begin, end)` (what "the list is kept
sorted" means for Python tuple comparison). -/
def pair_le (x y : TimeInterval) : Prop :=
  x.begin < y.begin ∨ (x.begin = y.begin ∧ x.«end» ≤ y.«end»)

/-- Both directions of the pairwise overlap constraint; symmetric by
construction, so it transfers along permutations. -/
def allowed_pair (x y : TimeInterval) : Prop :=
  x.relative_position_of y ∈ ALLOWED_POSITIONS ∧
  y.relative_position_of x ∈ ALLOWED_POSITIONS

theorem allowed_pair_symm {x y : TimeInterval} (h : allowed_pair x y) :
    allowed_pair y x :=
  ⟨h.2, h.1⟩

theorem allowed_inverse_closed :
    ∀ r : RelPos, r ∈ ALLOWED_POSITIONS →
      INVERSE_RELATIVE_POSITION r ∈ ALLOWED_POSITIONS := by
  decide

theorem allowed_pair_of_mem {x y : TimeInterval} (hx : x.valid) (hy : y.valid)
    (h : x.relative_position_of y ∈ ALLOWED_POSITIONS) : allowed_pair x y := by
  refine ⟨h, ?_⟩
  rw [← inverse_relative_position_eq x y hx hy]
  exact allowed_inverse_closed _ h

theorem check_overlap_loop_ok (interval : TimeInterval) :
    ∀ ms : List TimeInterval, ∀ u : Unit,
      check_overlap_loop interval ms = .ok u →
      ∀ m ∈ ms, m.relative_position_of interval ∈ ALLOWED_POSITIONS := by
  intro ms
  induction ms with
  | nil => intro u h m hm; cases hm
  | cons i rest ih =>
      intro u h m hm
      unfold check_overlap_loop at h
      split_ifs at h with hi
      · rw [List.mem_cons] at hm
        rcases hm with rfl | hm
        · exact hi
        · exact ih u h m hm

theorem check_overlap_loop_ok_of_all (interval : TimeInterval) :
    ∀ ms : List TimeInterval,
      (∀ m ∈ ms, m.relative_position_of interval ∈ ALLOWED_POSITIONS) →
      check_overlap_loop interval ms = .ok () := by
  intro ms
  induction ms with
  | nil => intro hall; rfl
  | cons i rest ih =>
      intro hall
      unfold check_overlap_loop
      rw [if_pos (hall i (List.mem_cons_self i rest))]
      exact ih (fun m hm => hall m (List.mem_cons_of_mem i hm))

theorem interval_sort_le_iff (x y : TimeInterval) :
    interval_sort_le x y = true ↔ pair_le x y := by
  unfold interval_sort_le TimeInterval.py_lt pair_le
  simp only [Bool.not_eq_true', decide_eq_false_iff_not, not_or, not_and, not_lt]
  constructor
  · rintro ⟨h1, h2⟩
    rcases lt_or_eq_of_le h1 with h | h
    · exact Or.inl h
    · exact Or.inr ⟨h, h2 h.symm⟩
  · rintro (h | ⟨h1, h2⟩)
    · exact ⟨le_of_lt h, fun he => absurd (he ▸ h) (lt_irrefl _)⟩
    · exact ⟨le_of_eq h1, fun _ => h2⟩

theorem interval_sort_le_trans (a b c : TimeInterval)
    (h1 : interval_sort_le a b = true) (h2 : interval_sort_le b c = true) :
    interval_sort_le a c = true := by
  rw [interval_sort_le_iff] at *
  unfold pair_le at *
  rcases h1 with h1 | ⟨h1, h1e⟩ <;> rcases h2 with h2 | ⟨h2, h2e⟩
  · exact Or.inl (lt_trans h1 h2)
  · exact Or.inl (h2 ▸ h1)
  · exact Or.inl (h1 ▸ h2)
  · exact Or.inr ⟨h1.trans h2, h1e.trans h2e⟩

theorem interval_sort_le_total (a b : TimeInterval) :
    (interval_sort_le a b || interval_sort_le b a) = true := by
  rw [Bool.or_eq_true, interval_sort_le_iff, interval_sort_le_iff]
  unfold pair_le
  rcases lt_trichotomy a.begin b.begin with h | h | h
  · exact Or.inl (Or.inl h)
  · rcases le_total a.«end» b.«end» with he | he
    · exact Or.inl (Or.inr ⟨h, he⟩)
    · exact Or.inr (Or.inr ⟨h.symm, he⟩)
  · exact Or.inr (Or.inl h)

/-- Single-step invariant preservation for `add` with `sort=True`. -/
theorem add_ok_invariants (L : TimeIntervalList) (c : TimeInterval)
    (L2 : TimeIntervalList)
    (hv : ∀ m ∈ L.intervals, m.valid)
    (hp : List.Pairwise allowed_pair L.intervals)
    (hc : c.valid)
    (h : L.add c true = .ok L2) :
    (∀ m ∈ L2.intervals, m.valid) ∧
    List.Pairwise allowed_pair L2.intervals ∧
    List.Pairwise pair_le L2.intervals := by
  unfold TimeIntervalList.add at h
  cases hb : L._check_boundaries c with
  | error e => rw [hb] at h; exact Except.noConfusion h
  | ok u =>
      rw [hb] at h
      cases ho : L._check_overlap c with
      | error e => rw [ho] at h; exact Except.noConfusion h
      | ok u2 =>
          rw [ho] at h
          simp only [reduceIte] at h
          injection h with h
          subst h
          have hall : ∀ m ∈ L.intervals,
              m.relative_position_of c ∈ ALLOWED_POSITIONS :=
            check_overlap_loop_ok c L.intervals u2 ho
          have hperm :
              List.Perm ((L.intervals ++ [c]).mergeSort interval_sort_le)
                (L.intervals ++ [c]) :=
            List.mergeSort_perm (L.intervals ++ [c]) interval_sort_le
          refine ⟨?_, ?_, ?_⟩
          · intro m hm
            simp only [List.mem_mergeSort, List.mem_append,
              List.mem_singleton] at hm
            rcases hm with hm | rfl
            · exact hv m hm
            · exact hc
          · rw [hperm.pairwise_iff (fun hxy => allowed_pair_symm hxy)]
            rw [List.pairwise_append]
            refine ⟨hp, List.pairwise_singleton _ _, ?_⟩
            intro a ha b hb2
            rw [List.mem_singleton] at hb2
            subst hb2
            exact allowed_pair_of_mem (hv a ha) hc (hall a ha)
          · have hs := List.sorted_mergeSort interval_sort_le_trans
              interval_sort_le_total (L.intervals ++ [c])
            exact hs.imp (fun hab => (interval_sort_le_iff _ _).mp hab)

/-- Invariant preservation along any successful `add` sequence. -/
theorem add_all_invariants (cs : List TimeInterval) :
    ∀ L L2 : TimeIntervalList,
      (∀ m ∈ L.intervals, m.valid) →
      List.Pairwise allowed_pair L.intervals →
      List.Pairwise pair_le L.intervals →
      (∀ c ∈ cs, c.valid) →
      L.add_all cs = .ok L2 →
      (∀ m ∈ L2.intervals, m.valid) ∧
      List.Pairwise allowed_pair L2.intervals ∧
      List.Pairwise pair_le L2.intervals := by
  induction cs with
  | nil =>
      intro L L2 hv hp hs hcs h
      unfold TimeIntervalList.add_all at h
      injection h with h
      subst h
      exact ⟨hv, hp, hs⟩
  | cons c cs ih =>
      intro L L2 hv hp hs hcs h
      unfold TimeIntervalList.add_all at h
      cases ha : L.add c true with
      | error e => rw [ha] at h; exact Except.noConfusion h
      | ok L1 =>
          rw [ha] at h
          obtain ⟨hv1, hp1, hs1⟩ :=
            add_ok_invariants L c L1 hv hp (hcs c (List.mem_cons_self c cs)) ha
          exact ih L1 L2 hv1 hp1 hs1
            (fun x hx => hcs x (List.mem_cons_of_mem c hx)) h

/-- C6: starting from a valid list, after any sequence of successful
`add(interval, sort=True)` calls the member sequence is sorted ascending by
`(begin, end)` and every pair of members is in the allowed
(disjoint-or-touching) set; a failing `add` leaves the member sequence
unchanged. -/
theorem C6_add_keeps_invariants (L : TimeIntervalList) (cs : List TimeInterval)
    (hv : ∀ m ∈ L.intervals, m.valid)
    (hp : List.Pairwise allowed_pair L.intervals)
    (hs : List.Pairwise pair_le L.intervals)
    (hcs : ∀ c ∈ cs, c.valid) :
    (∀ L2, L.add_all cs = .ok L2 →
      List.Pairwise pair_le L2.intervals ∧
      List.Pairwise allowed_pair L2.intervals) ∧
    (∀ c s e, L.add c s = .error e → L.add_run c s = L) := by
  constructor
  · intro L2 h
    obtain ⟨hv2, hp2, hs2⟩ := add_all_invariants cs L L2 hv hp hs hcs h
    exact ⟨hs2, hp2⟩
  · intro c s e h
    unfold TimeIntervalList.add_run
    rw [h]

/-- Witness for C6: the empty-bounded list `[0,10]` with members `[0,1]`
then `[3,4]` added and a failing out-of-bounds `add`. -/
theorem C6_witness :
    (∀ L2,
      TimeIntervalList.add_all ⟨some 0, some 10, []⟩
        [⟨3, 4, .REGULAR⟩, ⟨0, 1, .REGULAR⟩] = .ok L2 →
      List.Pairwise pair_le L2.intervals ∧
      List.Pairwise allowed_pair L2.intervals) ∧
    (∀ c s e,
      TimeIntervalList.add ⟨some 0, some 10, []⟩ c s = .error e →
      TimeIntervalList.add_run ⟨some 0, some 10, []⟩ c s =
        ⟨some 0, some 10, []⟩) := by
  refine C6_add_keeps_invariants ⟨some 0, some 10, []⟩
    [⟨3, 4, .REGULAR⟩, ⟨0, 1, .REGULAR⟩]
    (fun m hm => absurd hm (List.not_mem_nil m))
    (List.Pairwise.nil)
    (List.Pairwise.nil)
    ?_
  intro c hc
  simp only [List.mem_cons, List.mem_singleton, List.not_mem_nil,
    or_false] at hc
  rcases hc with rfl | rfl
  · exact ⟨by norm_num, by norm_num⟩
  · exact ⟨by norm_num, by norm_num⟩

/-- C9: a zero-length candidate that coincides with an existing zero-length
member (`PP_C`) or sits exactly at a proper member's begin or end boundary
(`IP_B`, `IP_E`) is accepted by the overlap check, so `add` succeeds and
duplicate point intervals can coexist. -/
theorem C9_zero_length_accepted (L : TimeIntervalList) (c : TimeInterval)
    (hc : c.valid) (hz : c.has_zero_length)
    (hb : L._check_boundaries c = .ok ())
    (hm : ∀ m ∈ L.intervals, m.valid ∧
      ((m.has_zero_length ∧ m.begin = c.begin) ∨
       (¬ m.has_zero_length ∧ (c.begin = m.begin ∨ c.begin = m.«end»)))) :
    (∀ m ∈ L.intervals,
      m.relative_position_of c ∈ ALLOWED_POSITIONS) ∧
    ∃ L2, L.add c true = .ok L2 ∧ c ∈ L2.intervals := by
  unfold TimeInterval.has_zero_length at hz
  have hmem : ∀ m ∈ L.intervals,
      m.relative_position_of c ∈ ALLOWED_POSITIONS := by
    intro m hmL
    obtain ⟨⟨hmv0, hmv1⟩, hcase⟩ := hm m hmL
    unfold TimeInterval.relative_position_of TimeInterval.has_zero_length
    rcases hcase with ⟨hmz, hmb⟩ | ⟨hmz, hcb | hcb⟩ <;>
      unfold TimeInterval.has_zero_length at hmz <;>
      split_ifs <;>
      first
        | decide
        | (exfalso
           simp only [not_lt, ← ne_eq, ne_iff_lt_or_gt] at *
           (try casesm* _ ∨ _)
           all_goals linarith)
  refine ⟨hmem, ?_⟩
  have ho : L._check_overlap c = .ok () :=
    check_overlap_loop_ok_of_all c L.intervals hmem
  refine ⟨{ L with intervals :=
      (L.intervals ++ [c]).mergeSort interval_sort_le }, ?_, ?_⟩
  · unfold TimeIntervalList.add
    rw [hb, ho]
    rfl
  · simp

/-- Witness for C9: the list `[0,10]` holding the point `(2,2)` and the
proper interval `[2,4]`; the duplicate point `(2,2)` is accepted. -/
theorem C9_witness :
    (∀ m ∈ ([⟨2, 2, .REGULAR⟩, ⟨2, 4, .REGULAR⟩] : List TimeInterval),
      m.relative_position_of ⟨2, 2, .REGULAR⟩ ∈ ALLOWED_POSITIONS) ∧
    ∃ L2,
      TimeIntervalList.add
          ⟨some 0, some 10, [⟨2, 2, .REGULAR⟩, ⟨2, 4, .REGULAR⟩]⟩
          ⟨2, 2, .REGULAR⟩ true = .ok L2 ∧
      (⟨2, 2, .REGULAR⟩ : TimeInterval) ∈ L2.intervals := by
  refine C9_zero_length_accepted
    ⟨some 0, some 10, [⟨2, 2, .REGULAR⟩, ⟨2, 4, .REGULAR⟩]⟩
    ⟨2, 2, .REGULAR⟩ ⟨by norm_num, by norm_num⟩ rfl ?_ ?_
  · unfold TimeIntervalList._check_boundaries
    norm_num
  · intro m hm
    simp only [List.mem_cons, List.mem_singleton, List.not_mem_nil,
      or_false] at hm
    rcases hm with rfl | rfl
    · exact ⟨⟨by norm_num, by norm_num⟩, Or.inl ⟨rfl, rfl⟩⟩
    · refine ⟨⟨by norm_num, by norm_num⟩,
        Or.inr ⟨by norm_num [TimeInterval.has_zero_length], Or.inl rfl⟩⟩

/-- `x or d` for Python `Optional[int]` arguments: `None` and `0` are both
falsy, so they select the default (`fix_zero_length_intervals`, lines
807-808). -/
def py_or_nat (v : Option Nat) (d : Nat) : Nat :=
  match v with
  | none => d
  | some n => if n = 0 then d else n

/-- The second component of a `moves` entry: `"M"` (pure re-anchor) or
`"E"` (re-anchor then enlarge). -/
inductive MoveTag
  | M
  | E
deriving Repr, DecidableEq

/-- A `moves` entry `(index, tag, quantity)`; the quantity is `None` for
`"M"` entries. -/
abbrev Move : Type := Nat × MoveTag × Option ℚ

/-- The inner `while` loop of `fix_zero_length_intervals` (lines 815-821):
extend the run rightward through members shorter than the outstanding
slack.  `fuel` only bounds the number of iterations; the caller passes more
fuel than `max_index`, so exhaustion cannot occur. -/
def scan_run (ms : List TimeInterval) (offset : ℚ) (max_index : Nat) :
    Nat → Nat → ℚ → List Move → Except Err (Nat × ℚ × List Move)
  | 0, _, _, _ => .error .fuelExhausted
  | fuel + 1, j, slack, moves =>
      if j < max_index then
        match ms[j]? with
        | none => .error .indexError
        | some mj =>
            if mj.length < slack then
              if mj.has_zero_length then
                scan_run ms offset max_index fuel (j + 1) (slack + offset)
                  (moves ++ [(j, .E, some offset)])
              else
                scan_run ms offset max_index fuel (j + 1) slack
                  (moves ++ [(j, .M, none)])
            else .ok (j, slack, moves)
      else .ok (j, slack, moves)

/-- The boundary-reassignment loop of `fix_zero_length_intervals`
(lines 831-837), applied to the already reversed `moves` list.
`current_time` is a Python local that may still be unassigned when the loop
runs (`none`), in which case the lookup raises `NameError`
(referenced before assignment). -/
def apply_moves :
    List Move → Option ℚ → List TimeInterval →
      Except Err (Option ℚ × List TimeInterval)
  | [], curr, ms => .ok (curr, ms)
  | (index, t, q) :: rest, curr, ms =>
      match curr with
      | none => .error .nameError
      | some ct =>
          match ms[index]? with
          | none => .error .indexError
          | some m =>
              match m.move_end_at ct with
              | .error e => .error e
              | .ok m1 =>
                  match t with
                  | .M => apply_moves rest (some m1.begin) (ms.set index m1)
                  | .E =>
                      match q with
                      | none => .error .typeError
                      | some qv =>
                          match m1.enlarge qv true with
                          | .error e => .error e
                          | .ok m2 =>
                              apply_moves rest (some m2.begin) (ms.set index m2)

/-- One step of the run-termination choice (lines 822-829): either the run
reached `max_index` and fits against the list's own `end` (compared against
`self.end`, raising `TypeError` when that is `None`), or the next member
absorbs the slack by shrinking; in the source `fixable` is initialised to
`True` (line 822), so when neither branch applies the moves are still
executed with whatever `current_time` holds. -/
def fix_terminate (lend : Option ℚ) (max_index : Nat) (slack : ℚ) (j : Nat)
    (curr : Option ℚ) (ms : List TimeInterval) :
    Except Err (Option ℚ × List TimeInterval) :=
  if j = max_index then
    match ms[j - 1]? with
    | none => .error .indexError
    | some mj1 =>
        match lend with
        | none => .error .typeError
        | some le =>
            if mj1.«end» + slack ≤ le then .ok (some (mj1.«end» + slack), ms)
            else .ok (curr, ms)
  else
    match ms[j]? with
    | none => .error .indexError
    | some mj =>
        match mj.shrink slack true with
        | .error e => .error e
        | .ok mj2 => .ok (some mj2.begin, ms.set j mj2)

/-- The outer `while` loop of `fix_zero_length_intervals` (lines 809-842).
The `curr` argument is the function-scoped Python local `current_time`,
unassigned (`none`) until a run has been repaired.  After a run the scan
resumes at `i = j - 1; i += 1`, i.e. at `j`. -/
def fix_loop (lend : Option ℚ) (offset : ℚ) (max_index : Nat) :
    Nat → Nat → Option ℚ → List TimeInterval → Except Err (List TimeInterval)
  | 0, _, _, _ => .error .fuelExhausted
  | fuel + 1, i, curr, ms =>
      if i < max_index then
        match ms[i]? with
        | none => .error .indexError
        | some mi =>
            if mi.has_zero_length then
              match scan_run ms offset max_index (max_index + 1) (i + 1)
                  offset [(i, .E, some offset)] with
              | .error e => .error e
              | .ok (j, slack, moves) =>
                  match fix_terminate lend max_index slack j curr ms with
                  | .error e => .error e
                  | .ok (curr1, ms1) =>
                      match apply_moves moves.reverse curr1 ms1 with
                      | .error e => .error e
                      | .ok (curr2, ms2) =>
                          fix_loop lend offset max_index fuel j curr2 ms2
            else fix_loop lend offset max_index fuel (i + 1) curr ms
      else .ok ms

/-- `TimeIntervalList.fix_zero_length_intervals` (lines 801-842).  The fuel
`maxR + 1` dominates the number of outer-loop iterations, since the scan
index strictly increases on every iteration and stays below `maxR`. -/
def TimeIntervalList.fix_zero_length_intervals (L : TimeIntervalList)
    (offset : ℚ := 1 / 1000) (min_index : Option Nat := none)
    (max_index : Option Nat := none) : Except Err TimeIntervalList :=
  let minR := py_or_nat min_index 0
  let maxR := py_or_nat max_index L.intervals.length
  match fix_loop L.«end» offset maxR (maxR + 1) minR none L.intervals with
  | .ok ms => .ok { L with intervals := ms }
  | .error e => .error e

/-- C3: on the list `[0,10]` with members `(2.000,2.000)` and
`(2.000,5.000)`, `fix_zero_length_intervals(offset=0.001, min_index=0,
max_index=2)` turns member 0 into `(2.000,2.001)` (length exactly `0.001`)
and member 1 into `(2.001,5.000)` (length `2.999`); the members stay
boundary-adjacent and the span `[2.000,5.000]` is preserved. -/
theorem C3_concrete_repair :
    TimeIntervalList.fix_zero_length_intervals
        ⟨some 0, some 10, [⟨2, 2, .REGULAR⟩, ⟨2, 5, .REGULAR⟩]⟩
        (0.001 : ℚ) (some 0) (some 2) =
      .ok ⟨some 0, some 10,
        [⟨2, 2.001, .REGULAR⟩, ⟨2.001, 5, .REGULAR⟩]⟩ ∧
    TimeInterval.length ⟨2, 2.001, .REGULAR⟩ = 0.001 ∧
    TimeInterval.length ⟨2.001, 5, .REGULAR⟩ = 2.999 ∧
    (⟨2, 2.001, .REGULAR⟩ : TimeInterval).«end» =
      (⟨2.001, 5, .REGULAR⟩ : TimeInterval).begin := by
  refine ⟨?_, by norm_num [TimeInterval.length], by norm_num [TimeInterval.length], rfl⟩
  norm_num [TimeIntervalList.fix_zero_length_intervals, py_or_nat, fix_loop,
    scan_run, fix_terminate, apply_moves, TimeInterval.has_zero_length,
    TimeInterval.length, TimeInterval.shrink, TimeInterval.move_end_at,
    TimeInterval.enlarge, List.set]

/-- C2 (failing input): on the list with bounds `[0, 0.5]` holding the
single zero-length member `(0.5, 0.5)`, neither run termination is
feasible (`0.5 + 0.001 > 0.5`); the source still runs the reassignment
loop, because `fixable` is initialised `True`, and reading the unassigned
`current_time` raises `UnboundLocalError` — modelled as `Err.nameError` —
instead of leaving the member unrepaired without an error. -/
theorem C2_unfixable_raises :
    TimeIntervalList.fix_zero_length_intervals
        ⟨some 0, some (0.5 : ℚ), [⟨0.5, 0.5, .REGULAR⟩]⟩
        (0.001 : ℚ) none none =
      .error .nameError := by
  norm_num [TimeIntervalList.fix_zero_length_intervals, py_or_nat, fix_loop,
    scan_run, fix_terminate, apply_moves, TimeInterval.has_zero_length,
    TimeInterval.length, TimeInterval.shrink, TimeInterval.move_end_at,
    TimeInterval.enlarge, List.set]

/-- C10: passing `max_index=0` explicitly makes `max_index or len(self)`
select the list length (`0` is falsy in Python), so the whole list is
scanned rather than the empty range. -/
theorem C10_max_index_zero (L : TimeIntervalList) (off : ℚ) (mi : Option Nat)
    (h : 0 < L.intervals.length) :
    L.fix_zero_length_intervals off mi (some 0) =
      L.fix_zero_length_intervals off mi (some L.intervals.length) := by
  have h0 : L.intervals.length ≠ 0 := Nat.pos_iff_ne_zero.mp h
  unfold TimeIntervalList.fix_zero_length_intervals
  simp only [py_or_nat, reduceIte, if_neg h0]

/-- Witness for C10 on a one-member list. -/
theorem C10_witness :
    TimeIntervalList.fix_zero_length_intervals
        ⟨some 0, some 10, [⟨1, 2, .REGULAR⟩]⟩ (1 / 1000) none (some 0) =
      TimeIntervalList.fix_zero_length_intervals
        ⟨some 0, some 10, [⟨1, 2, .REGULAR⟩]⟩ (1 / 1000) none (some 1) :=
  C10_max_index_zero ⟨some 0, some 10, [⟨1, 2, .REGULAR⟩]⟩ (1 / 1000) none
    (by norm_num)

/-!
Model of the numeric layer: `TimeValue` extends Python's `decimal.Decimal` and merely re-wraps every
arithmetic result (`TimeValue.__add__` etc., lines 61-129), so closure in
the *type* is immediate; the numeric content of the claim is about
`decimal` arithmetic itself.  `decimal` computes the exact result and then
rounds it to the context precision — 28 significant digits by default —
with round-half-even.  `Dec` models a finite decimal (`coeff * 10 ^ exp`)
and `Dec.add`/`Dec.sub`/`Dec.mul` model the value computed by `Decimal`
addition, subtraction and multiplication under the default context.
-/

/-- A finite decimal number `coeff * 10 ^ exp`. -/
structure Dec where
  coeff : ℤ
  exp : ℤ
deriving Repr, DecidableEq

/-- The default `decimal` context precision (28 significant digits). -/
def PREC : Nat := 28

/-- Number of decimal digits of `n` (1 for `n = 0`, as for the coefficient
digit string of `Decimal(0)`). -/
def nd (n : Nat) : Nat := if n = 0 then 1 else Nat.log 10 n + 1

/-- Round `n / d` to the nearest integer, ties to even (`ROUND_HALF_EVEN`,
the default `decimal` rounding). -/
def rhe (n d : Nat) : Nat :=
  if 2 * (n % d) < d then n / d
  else if d < 2 * (n % d) then n / d + 1
  else if (n / d) % 2 = 0 then n / d else n / d + 1

/-- `decimal`'s `_fix`: keep a coefficient of at most `PREC` digits,
rounding half-even and bumping the exponent; a carry into `10 ^ PREC`
(e.g. `999…9` rounding up) sheds one more exact digit. -/
def decRound (x : Dec) : Dec :=
  if nd x.coeff.natAbs ≤ PREC then x
  else
    let shift := nd x.coeff.natAbs - PREC
    let m := rhe x.coeff.natAbs (10 ^ shift)
    let m2 := if m = 10 ^ PREC then m / 10 else m
    let shift2 := if m = 10 ^ PREC then shift + 1 else shift
    { coeff := if x.coeff < 0 then -(m2 : ℤ) else (m2 : ℤ),
      exp := x.exp + (shift2 : ℤ) }

/-- The rational value of a finite decimal. -/
def Dec.val (x : Dec) : ℚ := (x.coeff : ℚ) * (10 : ℚ) ^ x.exp

/-- `Decimal.__add__` under the default context: align the exponents,
add the coefficients exactly, then round to the context precision. -/
def Dec.add (a b : Dec) : Dec :=
  decRound
    ⟨a.coeff * 10 ^ (a.exp - min a.exp b.exp).toNat +
       b.coeff * 10 ^ (b.exp - min a.exp b.exp).toNat,
     min a.exp b.exp⟩

/-- `Decimal.__neg__` (exact). -/
def Dec.neg (a : Dec) : Dec := ⟨-a.coeff, a.exp⟩

/-- `Decimal.__sub__`: `a + (-b)`. -/
def Dec.sub (a b : Dec) : Dec := Dec.add a (Dec.neg b)

/-- `Decimal.__mul__` under the default context: multiply exactly, then
round to the context precision. -/
def Dec.mul (a b : Dec) : Dec :=
  decRound ⟨a.coeff * b.coeff, a.exp + b.exp⟩

theorem decRound_of_small (x : Dec) (h : nd x.coeff.natAbs ≤ PREC) :
    decRound x = x := by
  unfold decRound
  rw [if_pos h]

theorem pow_align (x e : ℤ) (h : e ≤ x) :
    ((10 : ℚ) ^ (x - e).toNat) * (10 : ℚ) ^ e = (10 : ℚ) ^ x := by
  rw [← zpow_natCast (10 : ℚ) (x - e).toNat,
    Int.toNat_of_nonneg (sub_nonneg.mpr h),
    ← zpow_add₀ (by norm_num : (10 : ℚ) ≠ 0)]
  congr 1
  ring

theorem add_val_exact (a b : Dec)
    (h : nd (a.coeff * 10 ^ (a.exp - min a.exp b.exp).toNat +
        b.coeff * 10 ^ (b.exp - min a.exp b.exp).toNat).natAbs ≤ PREC) :
    (a.add b).val = a.val + b.val := by
  unfold Dec.add
  rw [decRound_of_small _ h]
  unfold Dec.val
  push_cast
  rw [add_mul, mul_assoc, mul_assoc,
    pow_align a.exp (min a.exp b.exp) (min_le_left _ _),
    pow_align b.exp (min a.exp b.exp) (min_le_right _ _)]

set_option maxRecDepth 8000

/-- C7 counterexample: with 29 significant digits the exact sum
`10^28 + 1` is rounded half-even to `10^28`, so `Decimal` addition under
the default context is not always mathematically exact on finite decimal
literals. -/
theorem C7_counterexample :
    Dec.val (Dec.add ⟨10 ^ 28, 0⟩ ⟨1, 0⟩) = 10 ^ 28 ∧
    Dec.val ⟨10 ^ 28, 0⟩ + Dec.val ⟨1, 0⟩ = 10 ^ 28 + 1 ∧
    Dec.val (Dec.add ⟨10 ^ 28, 0⟩ ⟨1, 0⟩) ≠
      Dec.val ⟨10 ^ 28, 0⟩ + Dec.val ⟨1, 0⟩ := by
  have hlog : Nat.log 10 10000000000000000000000000001 = 28 :=
    Nat.log_eq_of_pow_le_of_lt_pow (by norm_num) (by norm_num)
  have h2 : Dec.val (Dec.add ⟨10 ^ 28, 0⟩ ⟨1, 0⟩) = 10 ^ 28 := by
    norm_num [Dec.add, Dec.val, decRound, nd, PREC, rhe, hlog]
  have h1 : Dec.val ⟨10 ^ 28, 0⟩ + Dec.val ⟨1, 0⟩ = 10 ^ 28 + 1 := by
    norm_num [Dec.val]
  refine ⟨h2, h1, ?_⟩
  rw [h1, h2]
  norm_num

set_option maxRecDepth 512

/-- C7 (amended): `+`, `-` and `×` on `TimeValue` always return `TimeValue`
(the type of `Dec.add`/`Dec.sub`/`Dec.mul` is `Dec → Dec → Dec`), and the
returned decimal value equals the mathematically exact result whenever the
exact result's coefficient fits in the context precision of 28 significant
digits (in particular for `"0.1" + "0.2" = "0.3"`); with more than 28
significant digits the result is instead rounded half-even to 28 digits. -/
theorem C7_closure_amended (a b : Dec) :
    (nd (a.coeff * 10 ^ (a.exp - min a.exp b.exp).toNat +
        b.coeff * 10 ^ (b.exp - min a.exp b.exp).toNat).natAbs ≤ PREC →
      (a.add b).val = a.val + b.val) ∧
    (nd (a.coeff * 10 ^ (a.exp - min a.exp b.exp).toNat +
        (- b.coeff) * 10 ^ (b.exp - min a.exp b.exp).toNat).natAbs ≤ PREC →
      (a.sub b).val = a.val - b.val) ∧
    (nd (a.coeff * b.coeff).natAbs ≤ PREC →
      (a.mul b).val = a.val * b.val) := by
  refine ⟨fun h => add_val_exact a b h, fun h => ?_, fun h => ?_⟩
  · unfold Dec.sub
    have hmin : min a.exp (Dec.neg b).exp = min a.exp b.exp := rfl
    have h2 := add_val_exact a (Dec.neg b) (by rw [hmin]; exact h)
    rw [h2]
    unfold Dec.val Dec.neg
    push_cast
    ring
  · unfold Dec.mul
    rw [decRound_of_small _ h]
    unfold Dec.val
    push_cast
    rw [zpow_add₀ (by norm_num : (10 : ℚ) ≠ 0)]
    ring

/-- Witness for C7 (amended) at `a = 0.1`, `b = 0.2`: the sum is exactly
`0.3`. -/
theorem C7_witness :
    Dec.val (Dec.add ⟨1, -1⟩ ⟨2, -1⟩) =
      Dec.val ⟨1, -1⟩ + Dec.val ⟨2, -1⟩ ∧
    Dec.val (Dec.add ⟨1, -1⟩ ⟨2, -1⟩) = (0.3 : ℚ) := by
  have hlog : Nat.log 10 3 = 0 := Nat.log_eq_zero_iff.2 (Or.inl (by norm_num))
  have h := (C7_closure_amended ⟨1, -1⟩ ⟨2, -1⟩).1
    (by norm_num [nd, PREC, hlog])
  refine ⟨h, ?_⟩
  rw [h]
  norm_num [Dec.val]
